import Mathlib

/-!
Verification of the banjo-keyring keyblock/keyfile binary codec
(`src/keyblock.rs`, `src/utils.rs`).

Modelling conventions:
* A byte stream is a `List Nat`; bytes produced by the serializer are
  always `< 256` by construction.
* Rust `String` is modelled as a `List Nat` of Unicode code points;
  `String::as_bytes` (UTF-8 encoding) is modelled by `strBytes`, and
  `char::from (byte : u8)` is the identity embedding of a byte value
  `0..255` as the code point of the same value.
* `HashMap<String, KeyFile>` is modelled as a `List KeyFile` held in the
  map's iteration order; the map key is the keyfile's `path` field
  (the Rust code inserts with `key.path.clone()`).  `insertKey` models
  `HashMap::insert`: replacing an entry with an equal path in place,
  appending otherwise.
* `io::Error` carries no information we can model purely; the only
  I/O failure a pure byte-list stream can exhibit is end-of-input,
  which `From<io::Error> for ParseErrors` maps to `UnexpectedEof`.
* `root_pubkey` is a caller-supplied opaque handle that is never parsed
  from or written to the stream; it is omitted from the model.
-/

set_option maxRecDepth 100000

namespace Banjo

/-- Magic number starting every keyblock (`b"banjo"`). -/
def MAGIC_NUMBER : List Nat := [98, 97, 110, 106, 111]

/-- Version specifier used by this implementation. -/
def FORMAT_SPECIFIER : Nat := 1

/-- `SECRET_SIZE` (in bits): a secret field is `SECRET_SIZE / 8` bytes. -/
def SECRET_SIZE : Nat := 256

/-- `SIGNATURE_SIZE` (in bits): the signature read is `SIGNATURE_SIZE / 8` bytes. -/
def SIGNATURE_SIZE : Nat := 50

/-- One entry inside a block (`struct KeyFile`). -/
structure KeyFile where
  flags : Nat
  secret : List Nat
  uid : Nat
  path : List Nat
  name : List Nat
  description : List Nat
  length : Nat
  content : List Nat
deriving DecidableEq

/-- The outer container (`struct KeyBlock`), without the opaque
`root_pubkey` handle (never parsed from or written to the stream).
`keys` holds the path-keyed mapping in iteration order. -/
structure KeyBlock where
  format_specifier : Nat
  flags : Nat
  secret : List Nat
  uid : Nat
  name : List Nat
  description : List Nat
  keys : List KeyFile
  signature : List Nat
deriving DecidableEq

/-- Enumeration of the potential errors when parsing keyblocks
(`enum ParseErrors`).  `IOError`'s payload is dropped: a pure byte-list
stream cannot produce a non-EOF I/O fault. -/
inductive ParseErrors where
  | KeyfileParseError : Nat → ParseErrors → ParseErrors
  | IOError : ParseErrors
  | UnexpectedEof : ParseErrors
  | InvalidMagicNumber : ParseErrors
  | UnknownFormatSpecifier : ParseErrors
deriving DecidableEq

/-- `utils::compare_buffers`: count positions where the zipped buffers
agree and require that count to equal both lengths. -/
def compare_buffers (a b : List Nat) : Bool :=
  let matching := ((a.zip b).filter (fun p => p.1 == p.2)).length
  matching == a.length && matching == b.length

/-- `utils::read_null_string`: consume bytes until a NUL byte or
end-of-input (both end the string silently; no error is ever reported),
returning the code points read and the remaining stream. -/
def read_null_string : List Nat → List Nat × List Nat
  | [] => ([], [])
  | b :: rest =>
    if b = 0 then ([], rest)
    else
      let (str, rest2) := read_null_string rest
      (b :: str, rest2)

/-- Little-endian byte encoding of `v` on `n` bytes
(`byteorder::WriteBytesExt::write_uN::<LittleEndian>`). -/
def leBytes : Nat → Nat → List Nat
  | 0, _ => []
  | n + 1, v => v % 256 :: leBytes n (v / 256)

/-- Little-endian value of a byte list
(`byteorder::ReadBytesExt::read_uN::<LittleEndian>` assembly). -/
def leValue : List Nat → Nat
  | [] => 0
  | b :: bs => b + 256 * leValue bs

/-- `Read::read_exact` into an `n`-byte buffer: take exactly `n` bytes
or fail with `UnexpectedEof`. -/
def readBytes (n : Nat) (s : List Nat) : Except ParseErrors (List Nat × List Nat) :=
  if n ≤ s.length then .ok (s.take n, s.drop n) else .error .UnexpectedEof

/-- `read_uN::<LittleEndian>`: read `n` bytes and assemble them
little-endian; a short read fails with `UnexpectedEof`. -/
def readLE (n : Nat) (s : List Nat) : Except ParseErrors (Nat × List Nat) :=
  match readBytes n s with
  | .error e => .error e
  | .ok (bs, rest) => .ok (leValue bs, rest)

/-- UTF-8 encoding of one Unicode code point (`char` in a Rust `String`,
as laid down by `String::as_bytes`). -/
def utf8Char (c : Nat) : List Nat :=
  if c < 128 then [c]
  else if c < 2048 then [192 + c / 64, 128 + c % 64]
  else if c < 65536 then [224 + c / 4096, 128 + c / 64 % 64, 128 + c % 64]
  else [240 + c / 262144, 128 + c / 4096 % 64, 128 + c / 64 % 64, 128 + c % 64]

/-- `String::as_bytes`: UTF-8 encoding of a code-point list. -/
def strBytes (s : List Nat) : List Nat := (s.map utf8Char).flatten

/-- `KeyFile::load`: flags, secret, uid, three NUL-terminated strings,
declared bit length, then `length / 8` content bytes. -/
def KeyFile.load (s : List Nat) : Except ParseErrors (KeyFile × List Nat) :=
  match readLE 8 s with
  | .error e => .error e
  | .ok (flags, s1) =>
  match readBytes (SECRET_SIZE / 8) s1 with
  | .error e => .error e
  | .ok (secret, s2) =>
  match readLE 2 s2 with
  | .error e => .error e
  | .ok (uid, s3) =>
  let (path, s4) := read_null_string s3
  let (name, s5) := read_null_string s4
  let (description, s6) := read_null_string s5
  match readLE 8 s6 with
  | .error e => .error e
  | .ok (length, s7) =>
  match readBytes (length / 8) s7 with
  | .error e => .error e
  | .ok (content, s8) =>
    .ok (⟨flags, secret, uid, path, name, description, length, content⟩, s8)

/-- `KeyFile::serialize`: the mirror-image write of `KeyFile::load`;
each string is written as its UTF-8 bytes followed by a NUL. -/
def KeyFile.serialize (k : KeyFile) : List Nat :=
  leBytes 8 k.flags ++ k.secret ++ leBytes 2 k.uid ++
  strBytes k.path ++ [0] ++ strBytes k.name ++ [0] ++ strBytes k.description ++ [0] ++
  leBytes 8 k.length ++ k.content

/-- `HashMap::insert` keyed by `path`: replace the entry with an equal
path in place, append when the path is new. -/
def insertKey (keys : List KeyFile) (k : KeyFile) : List KeyFile :=
  match keys with
  | [] => [k]
  | k0 :: rest => if k0.path = k.path then k :: rest else k0 :: insertKey rest k

/-- The `for i in 0..keyfile_number` loop of `KeyBlock::load`: parse `n`
keyfiles starting at index `i`, inserting each into the mapping; a
failure at index `j` aborts with `KeyfileParseError j`. -/
def loadKeyfiles : Nat → Nat → List KeyFile → List Nat →
    Except ParseErrors (List KeyFile × List Nat)
  | 0, _, keys, s => .ok (keys, s)
  | n + 1, i, keys, s =>
    match KeyFile.load s with
    | .ok (key, s1) => loadKeyfiles n (i + 1) (insertKey keys key) s1
    | .error e => .error (.KeyfileParseError i e)

/-- Serialized bytes of the keyfile collection in iteration order
(the `for keyfiles in self.keys.values()` loop). -/
def ksBytes (ks : List KeyFile) : List Nat := (ks.map KeyFile.serialize).flatten

/-- `KeyBlock::load`: magic (a short first read also yields
`InvalidMagicNumber`), format specifier, flags, secret, uid, name,
description, keyfile count, the keyfiles, then `SIGNATURE_SIZE / 8`
signature bytes. -/
def KeyBlock.load (s : List Nat) : Except ParseErrors KeyBlock :=
  if s.length < MAGIC_NUMBER.length then .error .InvalidMagicNumber
  else if ¬ compare_buffers (s.take MAGIC_NUMBER.length) MAGIC_NUMBER then
    .error .InvalidMagicNumber
  else
  match readLE 2 (s.drop MAGIC_NUMBER.length) with
  | .error e => .error e
  | .ok (format_specifier, s1) =>
  if format_specifier ≠ FORMAT_SPECIFIER then .error .UnknownFormatSpecifier
  else
  match readLE 8 s1 with
  | .error e => .error e
  | .ok (flags, s2) =>
  match readBytes (SECRET_SIZE / 8) s2 with
  | .error e => .error e
  | .ok (secret, s3) =>
  match readLE 2 s3 with
  | .error e => .error e
  | .ok (uid, s4) =>
  let (name, s5) := read_null_string s4
  let (description, s6) := read_null_string s5
  match readLE 8 s6 with
  | .error e => .error e
  | .ok (keyfile_number, s7) =>
  match loadKeyfiles keyfile_number 0 [] s7 with
  | .error e => .error e
  | .ok (keys, s8) =>
  match readBytes (SIGNATURE_SIZE / 8) s8 with
  | .error e => .error e
  | .ok (signature, _) =>
    .ok ⟨format_specifier, flags, secret, uid, name, description, keys, signature⟩

/-- `KeyBlock::serialize`: magic, the implementation's version constant
(`FORMAT_SPECIFIER`, not `self.format_specifier`), flags, secret, uid,
name, description, keyfile count, each keyfile in iteration order, then
the raw signature bytes. -/
def KeyBlock.serialize (b : KeyBlock) : List Nat :=
  MAGIC_NUMBER ++ leBytes 2 FORMAT_SPECIFIER ++ leBytes 8 b.flags ++ b.secret ++
  leBytes 2 b.uid ++ strBytes b.name ++ [0] ++ strBytes b.description ++ [0] ++
  leBytes 8 b.keys.length ++ ksBytes b.keys ++ b.signature

/-- A string (code-point list) that survives the write-then-read trip:
NUL-free (NUL would terminate it early) and ASCII (a code point ≥ 128
would be written as several UTF-8 bytes). -/
@[reducible] def asciiStr (s : List Nat) : Prop := ∀ c ∈ s, 0 < c ∧ c < 128

/-- Well-formedness of a `KeyFile` as maintained by the Rust types and
the §3 invariants: fields fit their integer widths, the secret is
32 bytes, strings are NUL-free ASCII, and `content.len() = length / 8`. -/
@[reducible] def KeyFile.wf (k : KeyFile) : Prop :=
  k.flags < 2 ^ 64 ∧ k.secret.length = SECRET_SIZE / 8 ∧ k.uid < 2 ^ 16 ∧
  asciiStr k.path ∧ asciiStr k.name ∧ asciiStr k.description ∧
  k.length < 2 ^ 64 ∧ k.content.length = k.length / 8

/-- Well-formedness of a `KeyBlock`: fields fit their widths, the secret
is 32 bytes, strings are NUL-free ASCII, every keyfile is well-formed,
paths are pairwise distinct, `format_specifier` is the supported
constant, and the signature is `SIGNATURE_SIZE / 8` bytes. -/
@[reducible] def KeyBlock.wf (b : KeyBlock) : Prop :=
  b.format_specifier = FORMAT_SPECIFIER ∧ b.flags < 2 ^ 64 ∧
  b.secret.length = SECRET_SIZE / 8 ∧ b.uid < 2 ^ 16 ∧
  asciiStr b.name ∧ asciiStr b.description ∧
  (∀ k ∈ b.keys, k.wf) ∧ b.keys.Pairwise (fun a b => a.path ≠ b.path) ∧
  b.signature.length = SIGNATURE_SIZE / 8 ∧ b.keys.length < 2 ^ 64

deriving instance DecidableEq for Except

/-! ### Byte-level parsing lemmas -/

theorem length_leBytes (n : Nat) : ∀ v, (leBytes n v).length = n := by
  induction n with
  | zero => intro v; rfl
  | succ n ih => intro v; simp [leBytes, ih]

theorem leValue_leBytes (n : Nat) : ∀ v, v < 256 ^ n → leValue (leBytes n v) = v := by
  induction n with
  | zero =>
    intro v hv
    interval_cases v
    rfl
  | succ n ih =>
    intro v hv
    have hdiv : v / 256 < 256 ^ n := by
      rw [Nat.div_lt_iff_lt_mul (by norm_num)]
      calc v < 256 ^ (n + 1) := hv
        _ = 256 ^ n * 256 := by rw [pow_succ]
    simp only [leBytes, leValue, ih (v / 256) hdiv]
    exact Nat.mod_add_div v 256

theorem readBytes_append (n : Nat) (l : List Nat) (h : l.length = n) (r : List Nat) :
    readBytes n (l ++ r) = .ok (l, r) := by
  subst h
  simp [readBytes, List.take_left, List.drop_left]

theorem readBytes_all (n : Nat) (s : List Nat) (h : s.length = n) :
    readBytes n s = .ok (s, []) := by
  subst h
  simp [readBytes, List.take_of_length_le, List.drop_of_length_le]

theorem readBytes_short (n : Nat) (s : List Nat) (h : s.length < n) :
    readBytes n s = .error .UnexpectedEof := by
  simp [readBytes, Nat.not_le.mpr h]

theorem readBytes_ok_length (n : Nat) (s bs r : List Nat)
    (h : readBytes n s = .ok (bs, r)) : bs.length = n := by
  unfold readBytes at h
  split at h
  · cases h
    simpa using Nat.min_eq_left (by assumption)
  · cases h

theorem readLE_append (n v : Nat) (h : v < 256 ^ n) (r : List Nat) :
    readLE n (leBytes n v ++ r) = .ok (v, r) := by
  rw [readLE, readBytes_append n _ (length_leBytes n v) r]
  simp [leValue_leBytes n v h]

theorem readLE_short (n : Nat) (s : List Nat) (h : s.length < n) :
    readLE n s = .error .UnexpectedEof := by
  rw [readLE, readBytes_short n s h]

theorem read_null_string_append (s : List Nat) (h : ∀ c ∈ s, c ≠ 0) (r : List Nat) :
    read_null_string (s ++ 0 :: r) = (s, r) := by
  induction s with
  | nil => simp [read_null_string]
  | cons b s ih =>
    have hb : b ≠ 0 := h b (by simp)
    have ih' := ih (fun c hc => h c (by simp [hc]))
    simp [read_null_string, hb, ih']

theorem read_null_string_all (s : List Nat) (h : ∀ c ∈ s, c ≠ 0) :
    read_null_string s = (s, []) := by
  induction s with
  | nil => rfl
  | cons b s ih =>
    have hb : b ≠ 0 := h b (by simp)
    simp only [read_null_string, if_neg hb, ih (fun c hc => h c (by simp [hc]))]

theorem strBytes_ascii (s : List Nat) (h : ∀ c ∈ s, c < 128) : strBytes s = s := by
  induction s with
  | nil => rfl
  | cons b s ih =>
    have hb : b < 128 := h b (by simp)
    simp only [strBytes, List.map_cons, List.flatten_cons, utf8Char, if_pos hb]
    simpa [strBytes] using ih (fun c hc => h c (by simp [hc]))

theorem matching_count_le (a b : List Nat) :
    ((a.zip b).filter (fun p => p.1 == p.2)).length ≤ a.length := by
  calc ((a.zip b).filter (fun p => p.1 == p.2)).length
      ≤ (a.zip b).length := List.length_filter_le _ _
    _ ≤ a.length := by rw [List.length_zip]; omega

theorem matching_count_self (a : List Nat) :
    ((a.zip a).filter (fun p => p.1 == p.2)).length = a.length := by
  induction a with
  | nil => rfl
  | cons x a ih => simp [List.zip_cons_cons, List.filter_cons, ih]

theorem compare_buffers_self (a : List Nat) : compare_buffers a a = true := by
  simp [compare_buffers, matching_count_self]

theorem compare_buffers_iff (a b : List Nat) (h : a.length = b.length) :
    compare_buffers a b = true ↔ a = b := by
  constructor
  · intro hc
    induction a generalizing b with
    | nil =>
      cases b
      · rfl
      · simp at h
    | cons x a ih =>
      cases b with
      | nil => simp at h
      | cons y b =>
        simp only [List.length_cons, Nat.add_right_cancel_iff] at h
        have hcount2 : (((x :: a).zip (y :: b)).filter (fun p => p.1 == p.2)).length
            = (x :: a).length ∧
            (((x :: a).zip (y :: b)).filter (fun p => p.1 == p.2)).length
            = (y :: b).length := by
          simpa [compare_buffers, Bool.and_eq_true, beq_iff_eq] using hc
        obtain ⟨hcount, -⟩ := hcount2
        by_cases hxy : x = y
        · subst hxy
          simp only [List.zip_cons_cons, List.filter_cons, beq_self_eq_true, if_pos,
            List.length_cons, Nat.add_right_cancel_iff] at hcount
          have hrec : compare_buffers a b = true := by
            simp only [compare_buffers, Bool.and_eq_true, beq_iff_eq]
            omega
          rw [ih b h hrec]
        · exfalso
          have hne : (x == y) = false := beq_eq_false_iff_ne.mpr hxy
          simp only [List.zip_cons_cons, List.filter_cons, hne, if_false,
            Bool.false_eq_true, List.length_cons] at hcount
          have := matching_count_le a b
          omega
  · intro hab
    subst hab
    exact compare_buffers_self a

/-! ### Round-trip lemmas -/

theorem KeyFile.load_roundtrip (k : KeyFile) (hk : k.wf) (r : List Nat) :
    KeyFile.load (k.serialize ++ r) = .ok (k, r) := by
  obtain ⟨hf, hsec, hu, hp, hn, hd, hl, hc⟩ := hk
  have hpow8 : (256 : ℕ) ^ 8 = 2 ^ 64 := by norm_num
  have hpow2 : (256 : ℕ) ^ 2 = 2 ^ 16 := by norm_num
  have hf' : k.flags < 256 ^ 8 := by omega
  have hu' : k.uid < 256 ^ 2 := by omega
  have hl' : k.length < 256 ^ 8 := by omega
  have hpB := strBytes_ascii k.path (fun c hc => (hp c hc).2)
  have hnB := strBytes_ascii k.name (fun c hc => (hn c hc).2)
  have hdB := strBytes_ascii k.description (fun c hc => (hd c hc).2)
  have hp0 : ∀ c ∈ k.path, c ≠ 0 := fun c hc => (hp c hc).1.ne'
  have hn0 : ∀ c ∈ k.name, c ≠ 0 := fun c hc => (hn c hc).1.ne'
  have hd0 : ∀ c ∈ k.description, c ≠ 0 := fun c hc => (hd c hc).1.ne'
  have hs : k.serialize ++ r =
      leBytes 8 k.flags ++ (k.secret ++ (leBytes 2 k.uid ++ (k.path ++ 0 ::
        (k.name ++ 0 :: (k.description ++ 0 ::
        (leBytes 8 k.length ++ (k.content ++ r))))))) := by
    simp [KeyFile.serialize, hpB, hnB, hdB, List.append_assoc]
  rw [hs]
  simp only [KeyFile.load, readLE_append 8 k.flags hf', readBytes_append _ _ hsec,
    readLE_append 2 k.uid hu', read_null_string_append _ hp0, read_null_string_append _ hn0,
    read_null_string_append _ hd0, readLE_append 8 k.length hl', readBytes_append _ _ hc]

theorem insertKey_not_mem (acc : List KeyFile) (k : KeyFile)
    (h : ∀ a ∈ acc, a.path ≠ k.path) : insertKey acc k = acc ++ [k] := by
  induction acc with
  | nil => rfl
  | cons a acc ih =>
    have ha : a.path ≠ k.path := h a (by simp)
    simp [insertKey, ha, ih (fun x hx => h x (by simp [hx]))]

theorem foldl_insertKey (ks : List KeyFile) :
    ∀ acc, (∀ a ∈ acc, ∀ k ∈ ks, a.path ≠ k.path) →
      ks.Pairwise (fun a b => a.path ≠ b.path) →
      ks.foldl insertKey acc = acc ++ ks := by
  induction ks with
  | nil => intro acc _ _; simp
  | cons k ks ih =>
    intro acc hdisj hpw
    rw [List.foldl_cons, insertKey_not_mem acc k (fun a ha => hdisj a ha k (by simp))]
    rw [ih (acc ++ [k]) ?_ (List.Pairwise.of_cons hpw)]
    · simp
    · intro a ha k2 hk2
      rcases List.mem_append.mp ha with h1 | h2
      · exact hdisj a h1 k2 (by simp [hk2])
      · simp only [List.mem_singleton] at h2
        subst h2
        exact (List.pairwise_cons.mp hpw).1 k2 hk2

theorem ksBytes_nil : ksBytes [] = [] := rfl

theorem ksBytes_cons (k : KeyFile) (ks : List KeyFile) :
    ksBytes (k :: ks) = k.serialize ++ ksBytes ks := by
  simp [ksBytes]

theorem loadKeyfiles_append : ∀ ks : List KeyFile, (∀ k ∈ ks, k.wf) →
    ∀ m i acc r, loadKeyfiles (ks.length + m) i acc (ksBytes ks ++ r) =
      loadKeyfiles m (i + ks.length) (ks.foldl insertKey acc) r := by
  intro ks
  induction ks with
  | nil => intro _ m i acc r; simp [ksBytes]
  | cons k ks ih =>
    intro h m i acc r
    have hlen : (k :: ks).length + m = (ks.length + m) + 1 := by simp; omega
    rw [hlen, ksBytes_cons, List.append_assoc]
    simp only [loadKeyfiles, KeyFile.load_roundtrip k (h k (by simp))]
    have h2 : i + (k :: ks).length = (i + 1) + ks.length := by simp; omega
    rw [List.foldl_cons, h2]
    exact ih (fun x hx => h x (by simp [hx])) m (i + 1) (insertKey acc k) r

theorem loadKeyfiles_exact (ks : List KeyFile) (h : ∀ k ∈ ks, k.wf) (i : Nat)
    (acc : List KeyFile) (r : List Nat) :
    loadKeyfiles ks.length i acc (ksBytes ks ++ r) = .ok (ks.foldl insertKey acc, r) := by
  have happ := loadKeyfiles_append ks h 0 i acc r
  simpa [loadKeyfiles] using happ

theorem KeyBlock.load_serialize (b : KeyBlock) (hb : b.wf) :
    KeyBlock.load b.serialize = .ok b := by
  obtain ⟨hfs, hf, hsec, hu, hn, hd, hks, hpw, hsig, hklen⟩ := hb
  have hpow8 : (256 : ℕ) ^ 8 = 2 ^ 64 := by norm_num
  have hpow2 : (256 : ℕ) ^ 2 = 2 ^ 16 := by norm_num
  have hFS' : FORMAT_SPECIFIER < 256 ^ 2 := by norm_num [FORMAT_SPECIFIER]
  have hf' : b.flags < 256 ^ 8 := by omega
  have hu' : b.uid < 256 ^ 2 := by omega
  have hklen' : b.keys.length < 256 ^ 8 := by omega
  have hnB := strBytes_ascii b.name (fun c hc => (hn c hc).2)
  have hdB := strBytes_ascii b.description (fun c hc => (hd c hc).2)
  have hn0 : ∀ c ∈ b.name, c ≠ 0 := fun c hc => (hn c hc).1.ne'
  have hd0 : ∀ c ∈ b.description, c ≠ 0 := fun c hc => (hd c hc).1.ne'
  have hfold : b.keys.foldl insertKey [] = b.keys := by
    simpa using foldl_insertKey b.keys [] (by simp) hpw
  have hmaglen : ∀ rest : List Nat,
      ¬ (MAGIC_NUMBER ++ rest).length < MAGIC_NUMBER.length := by
    intro rest
    simp [MAGIC_NUMBER]
  have hs : b.serialize =
      MAGIC_NUMBER ++ (leBytes 2 FORMAT_SPECIFIER ++ (leBytes 8 b.flags ++ (b.secret ++
        (leBytes 2 b.uid ++ (b.name ++ 0 :: (b.description ++ 0 ::
        (leBytes 8 b.keys.length ++ (ksBytes b.keys ++ b.signature)))))))) := by
    simp [KeyBlock.serialize, hnB, hdB, List.append_assoc]
  rw [hs]
  simp only [KeyBlock.load, hmaglen, List.take_left, List.drop_left, compare_buffers_self,
    readLE_append 2 FORMAT_SPECIFIER hFS', readLE_append 8 b.flags hf',
    readBytes_append _ _ hsec, readLE_append 2 b.uid hu',
    read_null_string_append _ hn0, read_null_string_append _ hd0,
    readLE_append 8 b.keys.length hklen', loadKeyfiles_exact b.keys hks 0 [] b.signature,
    hfold, readBytes_all _ _ hsig, ne_eq, not_true_eq_false, not_false_eq_true,
    if_false, if_true, Bool.true_eq_false, reduceIte]
  rw [← hfs]

/-! ### Truncation lemmas -/

theorem take_append_lt {α : Type} (A R : List α) (j : Nat) (h : j ≤ A.length) :
    (A ++ R).take j = A.take j := by
  rw [List.take_append_eq_append_take, Nat.sub_eq_zero_of_le h]
  simp

theorem take_append_ge {α : Type} (A R : List α) (j : Nat) (h : A.length ≤ j) :
    (A ++ R).take j = A ++ R.take (j - A.length) := by
  rw [List.take_append_eq_append_take, List.take_of_length_le h]

theorem take_cons_pos {α : Type} (a : α) (l : List α) (j : Nat) (h : 0 < j) :
    (a :: l).take j = a :: l.take (j - 1) := by
  obtain ⟨m, rfl⟩ : ∃ m, j = m + 1 := ⟨j - 1, by omega⟩
  simp

theorem KeyFile.load_take_eof (k : KeyFile) (hk : k.wf) (j : Nat)
    (hj : j < k.serialize.length) :
    KeyFile.load (k.serialize.take j) = .error .UnexpectedEof := by
  obtain ⟨hf, hsec, hu, hp, hn, hd, hl, hc⟩ := hk
  have hpow8 : (256 : ℕ) ^ 8 = 2 ^ 64 := by norm_num
  have hpow2 : (256 : ℕ) ^ 2 = 2 ^ 16 := by norm_num
  have hf' : k.flags < 256 ^ 8 := by omega
  have hu' : k.uid < 256 ^ 2 := by omega
  have hpB := strBytes_ascii k.path (fun c hc2 => (hp c hc2).2)
  have hnB := strBytes_ascii k.name (fun c hc2 => (hn c hc2).2)
  have hdB := strBytes_ascii k.description (fun c hc2 => (hd c hc2).2)
  have hp0 : ∀ c ∈ k.path, c ≠ 0 := fun c hc2 => (hp c hc2).1.ne'
  have hn0 : ∀ c ∈ k.name, c ≠ 0 := fun c hc2 => (hn c hc2).1.ne'
  have hs : k.serialize =
      leBytes 8 k.flags ++ (k.secret ++ (leBytes 2 k.uid ++ (k.path ++ 0 ::
        (k.name ++ 0 :: (k.description ++ 0 ::
        (leBytes 8 k.length ++ k.content)))))) := by
    simp [KeyFile.serialize, hpB, hnB, hdB, List.append_assoc]
  have hsec32 : k.secret.length = 32 := by simpa [SECRET_SIZE] using hsec
  have hL : k.serialize.length =
      53 + k.path.length + k.name.length + k.description.length + k.content.length := by
    rw [hs]
    simp [length_leBytes, hsec32]
    omega
  rw [hL] at hj
  rw [hs]
  by_cases c1 : j < 8
  · rw [take_append_lt _ _ _ (by simp [length_leBytes]; omega)]
    have hshort : ((leBytes 8 k.flags).take j).length < 8 := by
      simp [List.length_take, length_leBytes]
      omega
    simp only [KeyFile.load, readLE_short _ _ hshort]
  · rw [take_append_ge _ _ _ (by simp [length_leBytes]; omega)]
    simp only [length_leBytes]
    by_cases c2 : j < 40
    · rw [take_append_lt _ _ _ (by omega)]
      have hshort : (k.secret.take (j - 8)).length < SECRET_SIZE / 8 := by
        simp [List.length_take, hsec32, SECRET_SIZE]
        omega
      simp only [KeyFile.load, readLE_append 8 k.flags hf', readBytes_short _ _ hshort]
    · rw [take_append_ge _ _ _ (by omega), hsec32]
      by_cases c3 : j < 42
      · rw [take_append_lt _ _ _ (by simp [length_leBytes]; omega)]
        have hshort : ((leBytes 2 k.uid).take (j - 8 - 32)).length < 2 := by
          simp [List.length_take, length_leBytes]
          omega
        simp only [KeyFile.load, readLE_append 8 k.flags hf',
          readBytes_append _ _ hsec, readLE_short _ _ hshort]
      · rw [take_append_ge _ _ _ (by simp [length_leBytes]; omega)]
        simp only [length_leBytes]
        by_cases c4 : j < 42 + k.path.length + 1
        · rw [take_append_lt _ _ _ (by omega)]
          have hp0' : ∀ c ∈ k.path.take (j - 8 - 32 - 2), c ≠ 0 :=
            fun c hc2 => hp0 c (List.take_subset _ _ hc2)
          have hshort : (([] : List Nat)).length < 8 := by simp
          simp only [KeyFile.load, readLE_append 8 k.flags hf',
            readBytes_append _ _ hsec, readLE_append 2 k.uid hu',
            read_null_string_all _ hp0', read_null_string, readLE_short _ _ hshort]
        · rw [take_append_ge _ _ _ (by omega),
            take_cons_pos _ _ _ (by omega)]
          by_cases c5 : j < 42 + k.path.length + 1 + k.name.length + 1
          · rw [take_append_lt _ _ _ (by omega)]
            have hn0' : ∀ c ∈ k.name.take (j - 8 - 32 - 2 - k.path.length - 1), c ≠ 0 :=
              fun c hc2 => hn0 c (List.take_subset _ _ hc2)
            have hshort : (([] : List Nat)).length < 8 := by simp
            simp only [KeyFile.load, readLE_append 8 k.flags hf',
              readBytes_append _ _ hsec, readLE_append 2 k.uid hu',
              read_null_string_append _ hp0, read_null_string_all _ hn0',
              read_null_string, readLE_short _ _ hshort]
          · rw [take_append_ge _ _ _ (by omega),
              take_cons_pos _ _ _ (by omega)]
            by_cases c6 : j < 42 + k.path.length + 1 + k.name.length + 1 +
                k.description.length + 1
            · rw [take_append_lt _ _ _ (by omega)]
              have hd0' : ∀ c ∈ k.description.take
                  (j - 8 - 32 - 2 - k.path.length - 1 - k.name.length - 1), c ≠ 0 :=
                fun c hc2 => (hd c (List.take_subset _ _ hc2)).1.ne'
              have hshort : (([] : List Nat)).length < 8 := by simp
              simp only [KeyFile.load, readLE_append 8 k.flags hf',
                readBytes_append _ _ hsec, readLE_append 2 k.uid hu',
                read_null_string_append _ hp0, read_null_string_append _ hn0,
                read_null_string_all _ hd0', readLE_short _ _ hshort]
            · rw [take_append_ge _ _ _ (by omega),
                take_cons_pos _ _ _ (by omega)]
              have hd0 : ∀ c ∈ k.description, c ≠ 0 := fun c hc2 => (hd c hc2).1.ne'
              by_cases c7 : j < 42 + k.path.length + 1 + k.name.length + 1 +
                  k.description.length + 1 + 8
              · rw [take_append_lt _ _ _ (by simp [length_leBytes]; omega)]
                have hshort : ((leBytes 8 k.length).take
                    (j - 8 - 32 - 2 - k.path.length - 1 - k.name.length - 1 -
                      k.description.length - 1)).length < 8 := by
                  simp [List.length_take, length_leBytes]
                  omega
                simp only [KeyFile.load, readLE_append 8 k.flags hf',
                  readBytes_append _ _ hsec, readLE_append 2 k.uid hu',
                  read_null_string_append _ hp0, read_null_string_append _ hn0,
                  read_null_string_append _ hd0, readLE_short _ _ hshort]
              · rw [take_append_ge _ _ _ (by simp [length_leBytes]; omega)]
                simp only [length_leBytes]
                have hl' : k.length < 256 ^ 8 := by omega
                have hshort : (k.content.take
                    (j - 8 - 32 - 2 - k.path.length - 1 - k.name.length - 1 -
                      k.description.length - 1 - 8)).length < k.length / 8 := by
                  simp [List.length_take]
                  omega
                simp only [KeyFile.load, readLE_append 8 k.flags hf',
                  readBytes_append _ _ hsec, readLE_append 2 k.uid hu',
                  read_null_string_append _ hp0, read_null_string_append _ hn0,
                  read_null_string_append _ hd0, readLE_append 8 k.length hl',
                  readBytes_short _ _ hshort]

theorem loadKeyfiles_truncated : ∀ ks : List KeyFile, (∀ k ∈ ks, k.wf) →
    ∀ t, t < (ksBytes ks).length → ∀ i acc,
      ∃ d, d < ks.length ∧ loadKeyfiles ks.length i acc ((ksBytes ks).take t)
        = .error (.KeyfileParseError (i + d) .UnexpectedEof) := by
  intro ks
  induction ks with
  | nil =>
    intro _ t ht
    simp [ksBytes] at ht
  | cons k ks ih =>
    intro h t ht i acc
    by_cases hcase : t < k.serialize.length
    · refine ⟨0, by simp, ?_⟩
      have e : (ksBytes (k :: ks)).take t = k.serialize.take t := by
        rw [ksBytes_cons]
        exact take_append_lt _ _ _ (by omega)
      rw [e]
      simp only [List.length_cons, loadKeyfiles,
        KeyFile.load_take_eof k (h k (by simp)) t hcase, Nat.add_zero]
    · have e : (ksBytes (k :: ks)).take t =
          k.serialize ++ (ksBytes ks).take (t - k.serialize.length) := by
        rw [ksBytes_cons]
        exact take_append_ge _ _ _ (by omega)
      have ht' : t - k.serialize.length < (ksBytes ks).length := by
        rw [ksBytes_cons, List.length_append] at ht
        omega
      obtain ⟨d, hdlt, hd⟩ := ih (fun x hx => h x (by simp [hx])) _ ht' (i + 1) (insertKey acc k)
      refine ⟨d + 1, by simp; omega, ?_⟩
      rw [e]
      simp only [List.length_cons, loadKeyfiles, KeyFile.load_roundtrip k (h k (by simp))]
      rw [hd]
      have hidx : i + 1 + d = i + (d + 1) := by omega
      rw [hidx]

theorem KeyBlock.load_truncated (b : KeyBlock) (hb : b.wf) (j : Nat)
    (hj : j < b.serialize.length) :
    (j < 5 → KeyBlock.load (b.serialize.take j) = .error .InvalidMagicNumber) ∧
    (5 ≤ j → KeyBlock.load (b.serialize.take j) = .error .UnexpectedEof ∨
      ∃ d, KeyBlock.load (b.serialize.take j) =
        .error (.KeyfileParseError d .UnexpectedEof)) := by
  obtain ⟨hfs, hf, hsec, hu, hn, hd, hks, hpw, hsig, hklen⟩ := hb
  have hpow8 : (256 : ℕ) ^ 8 = 2 ^ 64 := by norm_num
  have hpow2 : (256 : ℕ) ^ 2 = 2 ^ 16 := by norm_num
  have hFS' : FORMAT_SPECIFIER < 256 ^ 2 := by norm_num [FORMAT_SPECIFIER]
  have hf' : b.flags < 256 ^ 8 := by omega
  have hu' : b.uid < 256 ^ 2 := by omega
  have hklen' : b.keys.length < 256 ^ 8 := by omega
  have hnB := strBytes_ascii b.name (fun c hc => (hn c hc).2)
  have hdB := strBytes_ascii b.description (fun c hc => (hd c hc).2)
  have hn0 : ∀ c ∈ b.name, c ≠ 0 := fun c hc => (hn c hc).1.ne'
  have hd0 : ∀ c ∈ b.description, c ≠ 0 := fun c hc => (hd c hc).1.ne'
  have hsec32 : b.secret.length = 32 := by simpa [SECRET_SIZE] using hsec
  have hsig6 : b.signature.length = 6 := by simpa [SIGNATURE_SIZE] using hsig
  have hmaglen : ∀ rest : List Nat,
      ¬ (MAGIC_NUMBER ++ rest).length < MAGIC_NUMBER.length := by
    intro rest
    simp [MAGIC_NUMBER]
  have hs : b.serialize =
      MAGIC_NUMBER ++ (leBytes 2 FORMAT_SPECIFIER ++ (leBytes 8 b.flags ++ (b.secret ++
        (leBytes 2 b.uid ++ (b.name ++ 0 :: (b.description ++ 0 ::
        (leBytes 8 b.keys.length ++ (ksBytes b.keys ++ b.signature)))))))) := by
    simp [KeyBlock.serialize, hnB, hdB, List.append_assoc]
  have hL : b.serialize.length =
      65 + b.name.length + b.description.length + (ksBytes b.keys).length := by
    rw [hs]
    simp [MAGIC_NUMBER, length_leBytes, hsec32, hsig6]
    omega
  rw [hL] at hj
  rw [hs]
  constructor
  · -- truncation inside the magic number
    intro hj5
    rw [take_append_lt _ _ _ (by simp [MAGIC_NUMBER]; omega)]
    have hcond : (MAGIC_NUMBER.take j).length < MAGIC_NUMBER.length := by
      simp [MAGIC_NUMBER, List.length_take]
      omega
    simp only [KeyBlock.load, if_pos hcond]
  · intro hj5
    rw [take_append_ge _ _ _ (by simp [MAGIC_NUMBER]; omega)]
    have hmag5 : MAGIC_NUMBER.length = 5 := by simp [MAGIC_NUMBER]
    rw [hmag5]
    by_cases c2 : j < 7
    · left
      rw [take_append_lt _ _ _ (by simp [length_leBytes]; omega)]
      have hshort : ((leBytes 2 FORMAT_SPECIFIER).take (j - 5)).length < 2 := by
        simp [List.length_take, length_leBytes]
        omega
      simp only [KeyBlock.load, hmaglen, List.take_left, List.drop_left,
        compare_buffers_self, readLE_short _ _ hshort, not_true_eq_false,
        Bool.true_eq_false, if_false, reduceIte]
    · rw [take_append_ge _ _ _ (by simp [length_leBytes]; omega)]
      simp only [length_leBytes]
      by_cases c3 : j < 15
      · left
        rw [take_append_lt _ _ _ (by simp [length_leBytes]; omega)]
        have hshort : ((leBytes 8 b.flags).take (j - 5 - 2)).length < 8 := by
          simp [List.length_take, length_leBytes]
          omega
        simp only [KeyBlock.load, hmaglen, List.take_left, List.drop_left,
          compare_buffers_self, readLE_append 2 FORMAT_SPECIFIER hFS',
          readLE_short _ _ hshort, ne_eq, not_true_eq_false, Bool.true_eq_false,
          if_false, reduceIte]
      · rw [take_append_ge _ _ _ (by simp [length_leBytes]; omega)]
        simp only [length_leBytes]
        by_cases c4 : j < 47
        · left
          rw [take_append_lt _ _ _ (by omega)]
          have hshort : (b.secret.take (j - 5 - 2 - 8)).length < SECRET_SIZE / 8 := by
            simp [List.length_take, hsec32, SECRET_SIZE]
            omega
          simp only [KeyBlock.load, hmaglen, List.take_left, List.drop_left,
            compare_buffers_self, readLE_append 2 FORMAT_SPECIFIER hFS',
            readLE_append 8 b.flags hf', readBytes_short _ _ hshort, ne_eq,
            not_true_eq_false, Bool.true_eq_false, if_false, reduceIte]
        · rw [take_append_ge _ _ _ (by omega), hsec32]
          by_cases c5 : j < 49
          · left
            rw [take_append_lt _ _ _ (by simp [length_leBytes]; omega)]
            have hshort : ((leBytes 2 b.uid).take (j - 5 - 2 - 8 - 32)).length < 2 := by
              simp [List.length_take, length_leBytes]
              omega
            simp only [KeyBlock.load, hmaglen, List.take_left, List.drop_left,
              compare_buffers_self, readLE_append 2 FORMAT_SPECIFIER hFS',
              readLE_append 8 b.flags hf', readBytes_append _ _ hsec,
              readLE_short _ _ hshort, ne_eq, not_true_eq_false, Bool.true_eq_false,
              if_false, reduceIte]
          · rw [take_append_ge _ _ _ (by simp [length_leBytes]; omega)]
            simp only [length_leBytes]
            by_cases c6 : j < 49 + b.name.length + 1
            · left
              rw [take_append_lt _ _ _ (by omega)]
              have hn0' : ∀ c ∈ b.name.take (j - 5 - 2 - 8 - 32 - 2), c ≠ 0 :=
                fun c hc => hn0 c (List.take_subset _ _ hc)
              have hshort : (([] : List Nat)).length < 8 := by simp
              simp only [KeyBlock.load, hmaglen, List.take_left, List.drop_left,
                compare_buffers_self, readLE_append 2 FORMAT_SPECIFIER hFS',
                readLE_append 8 b.flags hf', readBytes_append _ _ hsec,
                readLE_append 2 b.uid hu', read_null_string_all _ hn0',
                read_null_string, readLE_short _ _ hshort, ne_eq, not_true_eq_false,
                Bool.true_eq_false, if_false, reduceIte]
            · rw [take_append_ge _ _ _ (by omega), take_cons_pos _ _ _ (by omega)]
              by_cases c7 : j < 49 + b.name.length + 1 + b.description.length + 1
              · left
                rw [take_append_lt _ _ _ (by omega)]
                have hd0' : ∀ c ∈ b.description.take
                    (j - 5 - 2 - 8 - 32 - 2 - b.name.length - 1), c ≠ 0 :=
                  fun c hc => hd0 c (List.take_subset _ _ hc)
                have hshort : (([] : List Nat)).length < 8 := by simp
                simp only [KeyBlock.load, hmaglen, List.take_left, List.drop_left,
                  compare_buffers_self, readLE_append 2 FORMAT_SPECIFIER hFS',
                  readLE_append 8 b.flags hf', readBytes_append _ _ hsec,
                  readLE_append 2 b.uid hu', read_null_string_append _ hn0,
                  read_null_string_all _ hd0', read_null_string,
                  readLE_short _ _ hshort, ne_eq, not_true_eq_false,
                  Bool.true_eq_false, if_false, reduceIte]
              · rw [take_append_ge _ _ _ (by omega), take_cons_pos _ _ _ (by omega)]
                by_cases c8 : j < 49 + b.name.length + 1 + b.description.length + 1 + 8
                · left
                  rw [take_append_lt _ _ _ (by simp [length_leBytes]; omega)]
                  have hshort : ((leBytes 8 b.keys.length).take
                      (j - 5 - 2 - 8 - 32 - 2 - b.name.length - 1 -
                        b.description.length - 1)).length < 8 := by
                    simp [List.length_take, length_leBytes]
                    omega
                  simp only [KeyBlock.load, hmaglen, List.take_left, List.drop_left,
                    compare_buffers_self, readLE_append 2 FORMAT_SPECIFIER hFS',
                    readLE_append 8 b.flags hf', readBytes_append _ _ hsec,
                    readLE_append 2 b.uid hu', read_null_string_append _ hn0,
                    read_null_string_append _ hd0, readLE_short _ _ hshort, ne_eq,
                    not_true_eq_false, Bool.true_eq_false, if_false, reduceIte]
                · rw [take_append_ge _ _ _ (by simp [length_leBytes]; omega)]
                  simp only [length_leBytes]
                  by_cases c9 : j - 5 - 2 - 8 - 32 - 2 - b.name.length - 1 -
                      b.description.length - 1 - 8 < (ksBytes b.keys).length
                  · right
                    rw [take_append_lt _ _ _ (by omega)]
                    obtain ⟨d, hdlt, hdeq⟩ := loadKeyfiles_truncated b.keys hks
                      (j - 5 - 2 - 8 - 32 - 2 - b.name.length - 1 -
                        b.description.length - 1 - 8) (by omega) 0 []
                    refine ⟨d, ?_⟩
                    simp only [Nat.zero_add] at hdeq
                    simp only [KeyBlock.load, hmaglen, List.take_left, List.drop_left,
                      compare_buffers_self, readLE_append 2 FORMAT_SPECIFIER hFS',
                      readLE_append 8 b.flags hf', readBytes_append _ _ hsec,
                      readLE_append 2 b.uid hu', read_null_string_append _ hn0,
                      read_null_string_append _ hd0,
                      readLE_append 8 b.keys.length hklen', hdeq, ne_eq,
                      not_true_eq_false, Bool.true_eq_false, if_false, reduceIte]
                  · left
                    rw [take_append_ge _ _ _ (by omega)]
                    have hshort : (b.signature.take
                        (j - 5 - 2 - 8 - 32 - 2 - b.name.length - 1 -
                          b.description.length - 1 - 8 - (ksBytes b.keys).length)).length
                        < SIGNATURE_SIZE / 8 := by
                      simp [List.length_take, hsig6, SIGNATURE_SIZE]
                      omega
                    have hexact := loadKeyfiles_exact b.keys hks 0 []
                      (b.signature.take (j - 5 - 2 - 8 - 32 - 2 - b.name.length - 1 -
                        b.description.length - 1 - 8 - (ksBytes b.keys).length))
                    simp only [KeyBlock.load, hmaglen, List.take_left, List.drop_left,
                      compare_buffers_self, readLE_append 2 FORMAT_SPECIFIER hFS',
                      readLE_append 8 b.flags hf', readBytes_append _ _ hsec,
                      readLE_append 2 b.uid hu', read_null_string_append _ hn0,
                      read_null_string_append _ hd0,
                      readLE_append 8 b.keys.length hklen', hexact,
                      readBytes_short _ _ hshort, ne_eq, not_true_eq_false,
                      Bool.true_eq_false, if_false, reduceIte]

/-! ### Inversion lemmas: facts about any successful parse -/

theorem KeyFile.load_ok_content_length (s : List Nat) (k : KeyFile) (rest : List Nat)
    (h : KeyFile.load s = .ok (k, rest)) : k.content.length = k.length / 8 := by
  unfold KeyFile.load at h
  split at h
  · simp at h
  split at h
  · simp at h
  split at h
  · simp at h
  split at h
  split at h
  split at h
  split at h
  · simp at h
  split at h
  · simp at h
  rename_i content s8 heq
  injection h with h2
  injection h2 with h3 h4
  subst h3
  exact readBytes_ok_length _ _ _ _ heq

theorem KeyBlock.load_ok_signature_length (s : List Nat) (b : KeyBlock)
    (h : KeyBlock.load s = .ok b) : b.signature.length = SIGNATURE_SIZE / 8 := by
  unfold KeyBlock.load at h
  split at h
  · simp at h
  split at h
  · simp at h
  split at h
  · simp at h
  split at h
  · simp at h
  split at h
  · simp at h
  split at h
  · simp at h
  split at h
  · simp at h
  split at h
  split at h
  split at h
  · simp at h
  split at h
  · simp at h
  split at h
  · simp at h
  rename_i signature s9 heq
  injection h with h2
  subst h2
  exact readBytes_ok_length _ _ _ _ heq

/-! ### Concrete example data -/

/-- `n` zero bytes. -/
def zeros (n : Nat) : List Nat := List.replicate n 0

/-- A well-formed keyfile: path "p", declared bit length 48, 6 content bytes. -/
def kfA : KeyFile := ⟨0, zeros 32, 0, [112], [], [], 48, zeros 6⟩

/-- A well-formed keyfile with the same path "p" as `kfA` but different fields. -/
def kfB : KeyFile := ⟨1, zeros 32, 2, [112], [110], [], 0, []⟩

/-- A well-formed keyfile with path "q". -/
def kfC : KeyFile := ⟨0, zeros 32, 0, [113], [], [], 0, []⟩

/-- A well-formed block holding `kfA` and `kfC` (distinct paths). -/
def blkW1 : KeyBlock := ⟨1, 5, zeros 32, 19252, [107], [], [kfA, kfC], zeros 6⟩

/-- A block differing from well-formedness only in `format_specifier = 0`. -/
def blkC1 : KeyBlock := ⟨0, 0, zeros 32, 0, [], [], [], zeros 6⟩

/-- A well-formed empty block with a 6-byte signature. -/
def blkC2 : KeyBlock := ⟨1, 0, zeros 32, 0, [], [], [], zeros 6⟩

/-- An empty block with a 3-byte signature (shorter than `SIGNATURE_SIZE / 8`). -/
def blkC2s : KeyBlock := ⟨1, 0, zeros 32, 0, [], [], [], zeros 3⟩

/-- The §8 example block: uid 0x4B34, name "k", empty description, no
keyfiles, 50-byte all-zero signature. -/
def blkC3 : KeyBlock := ⟨1, 0, zeros 32, 19252, [107], [], [], zeros 50⟩

/-- A keyfile whose path holds the single code point 0xE9 (233). -/
def kfHi : KeyFile := ⟨0, zeros 32, 0, [233], [], [], 0, []⟩

/-- A serialized keyfile record whose path field is the raw byte 0xE9. -/
def streamHi : List Nat :=
  leBytes 8 0 ++ zeros 32 ++ leBytes 2 0 ++ [233, 0] ++ [0] ++ [0] ++ leBytes 8 0

theorem magic_prefix_not_short (rest : List Nat) :
    ¬ (MAGIC_NUMBER ++ rest).length < MAGIC_NUMBER.length := by
  simp [MAGIC_NUMBER]

/-! ### Claims -/

/-- C1 (corrected): the round-trip claim fails as stated, because
`KeyBlock::serialize` writes the constant `FORMAT_SPECIFIER` rather than
`self.format_specifier`: a block constructed with `format_specifier = 0`
does not survive `load ∘ serialize`. -/
theorem claim_C1_counterexample :
    KeyBlock.load (KeyBlock.serialize blkC1) ≠ .ok blkC1 := by decide

/-- C1 (amended): for every well-formed KeyBlock `B` — path-unique keys,
`format_specifier` equal to the supported constant, 32-byte secrets,
NUL-free ASCII strings, content lengths equal to `length / 8`, integer
fields within width, and a 6-byte signature — `load (serialize B)` yields
`B` field-for-field, keyfiles re-fed in iteration order. -/
theorem claim_C1 (b : KeyBlock) (hb : b.wf) : KeyBlock.load b.serialize = .ok b :=
  KeyBlock.load_serialize b hb

/-- C1 witness: the round trip at a concrete two-keyfile block. -/
theorem claim_C1_witness :
    blkW1.wf ∧ KeyBlock.load (KeyBlock.serialize blkW1) = .ok blkW1 :=
  ⟨by decide, claim_C1 blkW1 (by decide)⟩

/-- C2 (corrected): the code reads `SIGNATURE_SIZE / 8 = 6` signature
bytes, not 50: a stream with exactly 6 bytes after the keyfile records
parses successfully and stores a 6-byte signature. -/
theorem claim_C2_counterexample :
    KeyBlock.load (KeyBlock.serialize blkC2) = .ok blkC2 ∧
    blkC2.signature.length ≠ 50 := by decide

/-- C2 (amended): `KeyBlock::load` reads exactly `SIGNATURE_SIZE / 8 = 6`
signature bytes after the keyfile records; the signature stored in any
parsed KeyBlock is 6 bytes, and a serialized block whose trailing
signature field is shorter than 6 bytes fails with unexpected-end-of-input. -/
theorem claim_C2 :
    (∀ s b, KeyBlock.load s = .ok b → b.signature.length = SIGNATURE_SIZE / 8) ∧
    (∀ b : KeyBlock, b.flags < 2 ^ 64 → b.secret.length = SECRET_SIZE / 8 →
      b.uid < 2 ^ 16 → asciiStr b.name → asciiStr b.description →
      (∀ k ∈ b.keys, k.wf) → b.keys.length < 2 ^ 64 →
      b.signature.length < SIGNATURE_SIZE / 8 →
      KeyBlock.load b.serialize = .error .UnexpectedEof) := by
  constructor
  · exact KeyBlock.load_ok_signature_length
  · intro b hf hsec hu hn hd hks hklen hsig
    have hpow8 : (256 : ℕ) ^ 8 = 2 ^ 64 := by norm_num
    have hpow2 : (256 : ℕ) ^ 2 = 2 ^ 16 := by norm_num
    have hFS' : FORMAT_SPECIFIER < 256 ^ 2 := by norm_num [FORMAT_SPECIFIER]
    have hf' : b.flags < 256 ^ 8 := by omega
    have hu' : b.uid < 256 ^ 2 := by omega
    have hklen' : b.keys.length < 256 ^ 8 := by omega
    have hnB := strBytes_ascii b.name (fun c hc => (hn c hc).2)
    have hdB := strBytes_ascii b.description (fun c hc => (hd c hc).2)
    have hn0 : ∀ c ∈ b.name, c ≠ 0 := fun c hc => (hn c hc).1.ne'
    have hd0 : ∀ c ∈ b.description, c ≠ 0 := fun c hc => (hd c hc).1.ne'
    have hs : b.serialize =
        MAGIC_NUMBER ++ (leBytes 2 FORMAT_SPECIFIER ++ (leBytes 8 b.flags ++ (b.secret ++
          (leBytes 2 b.uid ++ (b.name ++ 0 :: (b.description ++ 0 ::
          (leBytes 8 b.keys.length ++ (ksBytes b.keys ++ b.signature)))))))) := by
      simp [KeyBlock.serialize, hnB, hdB, List.append_assoc]
    rw [hs]
    simp only [KeyBlock.load, magic_prefix_not_short, List.take_left, List.drop_left,
      compare_buffers_self, readLE_append 2 FORMAT_SPECIFIER hFS',
      readLE_append 8 b.flags hf', readBytes_append _ _ hsec,
      readLE_append 2 b.uid hu', read_null_string_append _ hn0,
      read_null_string_append _ hd0, readLE_append 8 b.keys.length hklen',
      loadKeyfiles_exact b.keys hks 0 [] b.signature, readBytes_short _ _ hsig,
      ne_eq, not_true_eq_false, Bool.true_eq_false, if_false, reduceIte]

/-- C2 witness: the amended claim at concrete blocks with a 6-byte and a
3-byte signature field. -/
theorem claim_C2_witness :
    (KeyBlock.load (KeyBlock.serialize blkC2) = .ok blkC2 ∧
      blkC2.signature.length = SIGNATURE_SIZE / 8) ∧
    (blkC2s.signature.length < SIGNATURE_SIZE / 8 ∧
      KeyBlock.load (KeyBlock.serialize blkC2s) = .error .UnexpectedEof) :=
  ⟨⟨by decide, claim_C2.1 (KeyBlock.serialize blkC2) blkC2 (by decide)⟩,
   ⟨by decide, claim_C2.2 blkC2s (by decide) (by decide) (by decide) (by decide)
      (by decide) (by decide) (by decide) (by decide)⟩⟩

/-- C3 (corrected): the §8 example block serializes to the fixed 110-byte
buffer, but parsing it back does not reproduce every field: the parsed
signature is the first 6 bytes, not the original 50. -/
theorem claim_C3_counterexample :
    (KeyBlock.serialize blkC3).length = 110 ∧
    KeyBlock.load (KeyBlock.serialize blkC3) ≠ .ok blkC3 := by decide

/-- C3 (amended): the §8 example block serializes to exactly 110 bytes,
and loading that buffer reproduces every field except `signature`, which
becomes the first `SIGNATURE_SIZE / 8 = 6` (zero) bytes of the original
50-byte signature. -/
theorem claim_C3 :
    (KeyBlock.serialize blkC3).length = 110 ∧
    KeyBlock.load (KeyBlock.serialize blkC3) =
      .ok { blkC3 with signature := zeros 6 } := by decide

/-- C4 (corrected): truncating a valid serialized block in the first five
bytes yields invalid-magic-number, not unexpected-end-of-input and not a
keyfile-parse-error. -/
theorem claim_C4_counterexample :
    ¬ (KeyBlock.load ((KeyBlock.serialize blkW1).take 3) = .error .UnexpectedEof ∨
       ∃ i e, KeyBlock.load ((KeyBlock.serialize blkW1).take 3) =
         .error (.KeyfileParseError i e)) := by
  have hload : KeyBlock.load ((KeyBlock.serialize blkW1).take 3) =
      .error .InvalidMagicNumber := by decide
  rw [hload]
  rintro (hcontra | ⟨i, e, hcontra⟩) <;> simp at hcontra

/-- C4 (amended): truncating a well-formed serialized block at any offset
strictly before its final (6th) signature byte never yields a parsed
block: offsets below 5 yield invalid-magic-number, and all later offsets
yield unexpected-end-of-input or a keyfile-parse-error wrapping
unexpected-end-of-input. -/
theorem claim_C4 (b : KeyBlock) (hb : b.wf) (j : Nat) (hj : j < b.serialize.length) :
    (j < 5 → KeyBlock.load (b.serialize.take j) = .error .InvalidMagicNumber) ∧
    (5 ≤ j → KeyBlock.load (b.serialize.take j) = .error .UnexpectedEof ∨
      ∃ d, KeyBlock.load (b.serialize.take j) =
        .error (.KeyfileParseError d .UnexpectedEof)) :=
  KeyBlock.load_truncated b hb j hj

/-- C4 witness: truncations of a concrete block at offsets 3 and 60. -/
theorem claim_C4_witness :
    (KeyBlock.load ((KeyBlock.serialize blkW1).take 3) = .error .InvalidMagicNumber) ∧
    (KeyBlock.load ((KeyBlock.serialize blkW1).take 60) = .error .UnexpectedEof ∨
      ∃ d, KeyBlock.load ((KeyBlock.serialize blkW1).take 60) =
        .error (.KeyfileParseError d .UnexpectedEof)) :=
  ⟨(claim_C4 blkW1 (by decide) 3 (by decide)).1 (by decide),
   (claim_C4 blkW1 (by decide) 60 (by decide)).2 (by decide)⟩

/-- C5 (confirmed): a well-formed stream holding two keyfile records with
equal paths parses successfully into a keys mapping of size one containing
exactly the second record. -/
theorem claim_C5 (flags : Nat) (secret : List Nat) (uid : Nat)
    (name descr sig : List Nat) (k1 k2 : KeyFile)
    (hflags : flags < 2 ^ 64) (hsecret : secret.length = SECRET_SIZE / 8)
    (huid : uid < 2 ^ 16) (hname : ∀ c ∈ name, c ≠ 0) (hdescr : ∀ c ∈ descr, c ≠ 0)
    (hsig : sig.length = SIGNATURE_SIZE / 8) (hk1 : k1.wf) (hk2 : k2.wf)
    (hpath : k1.path = k2.path) :
    KeyBlock.load (MAGIC_NUMBER ++ (leBytes 2 FORMAT_SPECIFIER ++ (leBytes 8 flags ++
      (secret ++ (leBytes 2 uid ++ (name ++ 0 :: (descr ++ 0 ::
      (leBytes 8 2 ++ (k1.serialize ++ (k2.serialize ++ sig)))))))))) =
      .ok ⟨FORMAT_SPECIFIER, flags, secret, uid, name, descr, [k2], sig⟩ := by
  have hpow8 : (256 : ℕ) ^ 8 = 2 ^ 64 := by norm_num
  have hpow2 : (256 : ℕ) ^ 2 = 2 ^ 16 := by norm_num
  have hFS' : FORMAT_SPECIFIER < 256 ^ 2 := by norm_num [FORMAT_SPECIFIER]
  have hf' : flags < 256 ^ 8 := by omega
  have hu' : uid < 256 ^ 2 := by omega
  have h2' : (2 : Nat) < 256 ^ 8 := by norm_num
  have hwfs : ∀ k ∈ [k1, k2], k.wf := by
    intro k hk
    simp only [List.mem_cons, List.not_mem_nil, or_false] at hk
    rcases hk with rfl | rfl
    · exact hk1
    · exact hk2
  have hload2 : loadKeyfiles 2 0 [] (k1.serialize ++ (k2.serialize ++ sig)) =
      .ok ([k2], sig) := by
    have hexact := loadKeyfiles_exact [k1, k2] hwfs 0 [] sig
    simpa [ksBytes_cons, ksBytes_nil, List.foldl_cons, List.foldl_nil,
      insertKey, hpath] using hexact
  simp only [KeyBlock.load, magic_prefix_not_short, List.take_left, List.drop_left,
    compare_buffers_self, readLE_append 2 FORMAT_SPECIFIER hFS',
    readLE_append 8 flags hf', readBytes_append _ _ hsecret,
    readLE_append 2 uid hu', read_null_string_append _ hname,
    read_null_string_append _ hdescr, readLE_append 8 2 h2', hload2,
    readBytes_all _ _ hsig, ne_eq, not_true_eq_false, Bool.true_eq_false,
    if_false, reduceIte]

/-- C5 witness: two concrete records sharing path "p"; only the second
survives. -/
theorem claim_C5_witness :
    KeyBlock.load (MAGIC_NUMBER ++ (leBytes 2 FORMAT_SPECIFIER ++ (leBytes 8 0 ++
      (zeros 32 ++ (leBytes 2 0 ++ (([] : List Nat) ++ 0 :: (([] : List Nat) ++ 0 ::
      (leBytes 8 2 ++ (kfA.serialize ++ (kfB.serialize ++ zeros 6)))))))))) =
      .ok ⟨FORMAT_SPECIFIER, 0, zeros 32, 0, [], [], [kfB], zeros 6⟩ :=
  claim_C5 0 (zeros 32) 0 [] [] (zeros 6) kfA kfB (by decide) (by decide) (by decide)
    (by decide) (by decide) (by decide) (by decide) (by decide) (by decide)

/-- C6 (confirmed): any stream shorter than 5 bytes, and any stream whose
first 5 bytes differ from the "banjo" magic, fails with
invalid-magic-number. -/
theorem claim_C6 (s : List Nat)
    (h : s.length < MAGIC_NUMBER.length ∨ s.take MAGIC_NUMBER.length ≠ MAGIC_NUMBER) :
    KeyBlock.load s = .error .InvalidMagicNumber := by
  by_cases hlen : s.length < MAGIC_NUMBER.length
  · unfold KeyBlock.load
    rw [if_pos hlen]
  · rcases h with h | h
    · exact absurd h hlen
    · have hlen5 : (s.take MAGIC_NUMBER.length).length = MAGIC_NUMBER.length := by
        simp only [List.length_take]
        omega
      have hcmp : ¬ compare_buffers (s.take MAGIC_NUMBER.length) MAGIC_NUMBER = true := by
        intro hc
        exact h ((compare_buffers_iff _ _ hlen5).mp hc)
      unfold KeyBlock.load
      rw [if_neg hlen, if_pos hcmp]

/-- C6 witness: a 3-byte stream and a 7-byte stream with a wrong magic
byte both yield invalid-magic-number. -/
theorem claim_C6_witness :
    KeyBlock.load [1, 2, 3] = .error .InvalidMagicNumber ∧
    KeyBlock.load [98, 97, 110, 106, 112, 0, 0] = .error .InvalidMagicNumber :=
  ⟨claim_C6 [1, 2, 3] (Or.inl (by decide)),
   claim_C6 [98, 97, 110, 106, 112, 0, 0] (Or.inr (by decide))⟩

/-- C7 (confirmed): valid magic followed by a 2-byte little-endian format
specifier other than 1 fails with unknown-format-specifier, whatever bytes
follow. -/
theorem claim_C7 (v : Nat) (rest : List Nat) (hv : v < 2 ^ 16)
    (hne : v ≠ FORMAT_SPECIFIER) :
    KeyBlock.load (MAGIC_NUMBER ++ (leBytes 2 v ++ rest)) =
      .error .UnknownFormatSpecifier := by
  have hpow2 : (256 : ℕ) ^ 2 = 2 ^ 16 := by norm_num
  have hv' : v < 256 ^ 2 := by omega
  simp only [KeyBlock.load, magic_prefix_not_short, List.take_left, List.drop_left,
    compare_buffers_self, readLE_append 2 v hv', ne_eq, hne, not_true_eq_false,
    not_false_eq_true, Bool.true_eq_false, if_false, if_true, reduceIte]

/-- C7 witness: specifier 2 is rejected as unknown-format-specifier. -/
theorem claim_C7_witness :
    (2 : Nat) < 2 ^ 16 ∧ (2 : Nat) ≠ FORMAT_SPECIFIER ∧
    KeyBlock.load (MAGIC_NUMBER ++ (leBytes 2 2 ++ [])) =
      .error .UnknownFormatSpecifier :=
  ⟨by decide, by decide, claim_C7 2 [] (by decide) (by decide)⟩

/-- C8 (confirmed): when the keyfile codec fails on record `i` (zero
based), `KeyBlock::load` aborts with a keyfile-parse error carrying
exactly index `i` and the nested cause. -/
theorem claim_C8 (flags : Nat) (secret : List Nat) (uid : Nat) (name descr : List Nat)
    (n : Nat) (ks : List KeyFile) (s : List Nat) (e : ParseErrors)
    (hflags : flags < 2 ^ 64) (hsecret : secret.length = SECRET_SIZE / 8)
    (huid : uid < 2 ^ 16) (hname : ∀ c ∈ name, c ≠ 0) (hdescr : ∀ c ∈ descr, c ≠ 0)
    (hks : ∀ k ∈ ks, k.wf) (hn64 : n < 2 ^ 64) (hcount : ks.length < n)
    (hfail : KeyFile.load s = .error e) :
    KeyBlock.load (MAGIC_NUMBER ++ (leBytes 2 FORMAT_SPECIFIER ++ (leBytes 8 flags ++
      (secret ++ (leBytes 2 uid ++ (name ++ 0 :: (descr ++ 0 ::
      (leBytes 8 n ++ (ksBytes ks ++ s))))))))) =
      .error (.KeyfileParseError ks.length e) := by
  have hpow8 : (256 : ℕ) ^ 8 = 2 ^ 64 := by norm_num
  have hpow2 : (256 : ℕ) ^ 2 = 2 ^ 16 := by norm_num
  have hFS' : FORMAT_SPECIFIER < 256 ^ 2 := by norm_num [FORMAT_SPECIFIER]
  have hf' : flags < 256 ^ 8 := by omega
  have hu' : uid < 256 ^ 2 := by omega
  have hn' : n < 256 ^ 8 := by omega
  obtain ⟨m, rfl⟩ : ∃ m, n = ks.length + (m + 1) := ⟨n - ks.length - 1, by omega⟩
  have hkf : loadKeyfiles (ks.length + (m + 1)) 0 [] (ksBytes ks ++ s) =
      .error (.KeyfileParseError ks.length e) := by
    rw [loadKeyfiles_append ks hks (m + 1) 0 [] s]
    simp only [loadKeyfiles, hfail, Nat.zero_add]
  simp only [KeyBlock.load, magic_prefix_not_short, List.take_left, List.drop_left,
    compare_buffers_self, readLE_append 2 FORMAT_SPECIFIER hFS',
    readLE_append 8 flags hf', readBytes_append _ _ hsecret,
    readLE_append 2 uid hu', read_null_string_append _ hname,
    read_null_string_append _ hdescr, readLE_append 8 (ks.length + (m + 1)) hn',
    hkf, ne_eq, not_true_eq_false, Bool.true_eq_false, if_false, reduceIte]

/-- C8 witness: a declared count of 1 with an empty record stream fails at
index 0 wrapping unexpected-end-of-input. -/
theorem claim_C8_witness :
    KeyFile.load ([] : List Nat) = .error .UnexpectedEof ∧
    KeyBlock.load (MAGIC_NUMBER ++ (leBytes 2 FORMAT_SPECIFIER ++ (leBytes 8 0 ++
      (zeros 32 ++ (leBytes 2 0 ++ (([] : List Nat) ++ 0 :: (([] : List Nat) ++ 0 ::
      (leBytes 8 1 ++ (ksBytes [] ++ ([] : List Nat)))))))))) =
      .error (.KeyfileParseError 0 .UnexpectedEof) :=
  ⟨by decide, claim_C8 0 (zeros 32) 0 [] [] 1 [] [] .UnexpectedEof (by decide)
    (by decide) (by decide) (by decide) (by decide) (by decide) (by decide)
    (by decide) (by decide)⟩

/-- C9 (confirmed): every successfully parsed KeyFile satisfies
`content.len() = length / 8`; a well-formed KeyFile with `length = 48`
carries exactly 6 content bytes, and its serialize-then-load round trip
reproduces it (hence exactly those 6 content bytes). -/
theorem claim_C9 :
    (∀ s k rest, KeyFile.load s = .ok (k, rest) → k.content.length = k.length / 8) ∧
    (∀ k : KeyFile, k.wf → k.length = 48 → k.content.length = 6 ∧
      KeyFile.load k.serialize = .ok (k, [])) := by
  constructor
  · exact KeyFile.load_ok_content_length
  · intro k hk h48
    constructor
    · have hc := hk.2.2.2.2.2.2.2
      rw [h48] at hc
      simpa using hc
    · simpa using KeyFile.load_roundtrip k hk []

/-- C9 witness: the concrete `length = 48` keyfile `kfA`. -/
theorem claim_C9_witness :
    kfA.content.length = kfA.length / 8 ∧
    (kfA.content.length = 6 ∧ KeyFile.load kfA.serialize = .ok (kfA, [])) :=
  ⟨claim_C9.1 kfA.serialize kfA [] (by decide),
   claim_C9.2 kfA (by decide) (by decide)⟩

/-- C10 (confirmed): `read_null_string` never fails and returns exactly
the code points of the bytes before the first NUL (end-of-input silently
ends the string); a parsed record whose path byte is 0xE9 re-serializes
that character as the two UTF-8 bytes [195, 169], so the re-serialized
record differs from its input stream. -/
theorem claim_C10 :
    (∀ s : List Nat, read_null_string s =
      (s.takeWhile (fun c => c != 0), (s.dropWhile (fun c => c != 0)).drop 1)) ∧
    (KeyFile.load streamHi = .ok (kfHi, []) ∧ utf8Char 233 = [195, 169] ∧
      KeyFile.serialize kfHi ≠ streamHi) := by
  constructor
  · intro s
    induction s with
    | nil => rfl
    | cons b s ih =>
      by_cases hb : b = 0
      · subst hb
        simp [read_null_string, List.takeWhile_cons, List.dropWhile_cons]
      · simp [read_null_string, List.takeWhile_cons, List.dropWhile_cons, hb, ih]
  · exact ⟨by decide, by decide, by decide⟩

end Banjo
